import Mathlib

/-!
Verification of the template-editor core: component store, serializer
(export/import with sanitization), order reconciler, fill/preview engine and
clipboard flattener.  Definitions are shallow embeddings of the TypeScript
sources (`TemplateEditor.tsx`, `FillTemplateModal.tsx`, `ComponentStore.ts`).
JavaScript runtime values flowing through `JSON.parse` are modelled by `JVal`;
machine state mutated by the editor component is modelled by `EditorState`.
-/

/-- A JavaScript value as produced by `JSON.parse` plus `undefined`
(the result of reading an absent property). -/
inductive JVal where
  | undefined : JVal
  | null : JVal
  | bool (b : Bool) : JVal
  | num (n : Int) : JVal
  | str (s : String) : JVal
  | arr (elems : List JVal) : JVal
  | obj (fields : List (String × JVal)) : JVal
deriving Repr

/-- JavaScript truthiness of a value (`NaN` is not representable here). -/
def jvTruthy : JVal → Bool
  | .undefined => false
  | .null => false
  | .bool b => b
  | .num n => n != 0
  | .str s => s != ""
  | .arr _ => true
  | .obj _ => true

/-- `Array.isArray`. -/
def jvIsArr : JVal → Bool
  | .arr _ => true
  | _ => false

/-- Strict equality `v === s` against a string literal. -/
def isStrEq : JVal → String → Bool
  | .str t, s => t == s
  | _, _ => false

/-- `v === undefined`. -/
def jvIsUndefined : JVal → Bool
  | .undefined => true
  | _ => false

mutual
/-- Structural value equality; used for `Map` keys and `===` on ids, which in
the sources are only ever primitives (strings), where JavaScript's
SameValueZero agrees with structural equality. -/
def jvBEq : JVal → JVal → Bool
  | .undefined, .undefined => true
  | .null, .null => true
  | .bool a, .bool b => a == b
  | .num a, .num b => a == b
  | .str a, .str b => a == b
  | .arr xs, .arr ys => jvListBEq xs ys
  | .obj fs, .obj gs => jvFieldsBEq fs gs
  | _, _ => false

def jvListBEq : List JVal → List JVal → Bool
  | [], [] => true
  | x :: xs, y :: ys => jvBEq x y && jvListBEq xs ys
  | _, _ => false

def jvFieldsBEq : List (String × JVal) → List (String × JVal) → Bool
  | [], [] => true
  | (k, v) :: fs, (l, w) :: gs => k == l && jvBEq v w && jvFieldsBEq fs gs
  | _, _ => false
end

/-- First field with the given key of an object's field list. -/
def lookupField (fs : List (String × JVal)) (k : String) : Option JVal :=
  (fs.find? (fun p => p.1 == k)).map (fun p => p.2)

/-- Property read `v[k]`: throws a `TypeError` on `null`/`undefined`,
yields `undefined` for an absent key or a primitive receiver. -/
def jsGetE : JVal → String → Except Unit JVal
  | .null, _ => .error ()
  | .undefined, _ => .error ()
  | .obj fs, k => .ok ((lookupField fs k).getD .undefined)
  | _, _ => .ok .undefined

/-- Optional-chaining read `v?.[k]`: `undefined` on `null`/`undefined`. -/
def jsGetOpt : JVal → String → JVal
  | .null, _ => .undefined
  | .undefined, _ => .undefined
  | .obj fs, k => (lookupField fs k).getD .undefined
  | _, _ => .undefined

/-- Assignment `o[k] = v` / a later duplicate key in an object literal:
the first occurrence keeps its position, absent keys are appended. -/
def setField : List (String × JVal) → String → JVal → List (String × JVal)
  | [], k, v => [(k, v)]
  | (k', v') :: rest, k, v =>
    if k' == k then (k', v) :: rest else (k', v') :: setField rest k v

/-- Own enumerable fields produced by spreading a truthy value
(`{...v}`): objects give their fields, arrays and strings give
index-keyed entries, other primitives give nothing. -/
def spreadFields : JVal → List (String × JVal)
  | .obj fs => fs
  | .arr xs => xs.enum.map (fun p => (toString p.1, p.2))
  | .str s => s.data.enum.map (fun p => (toString p.1, JVal.str (String.mk [p.2])))
  | _ => []

/-- `ComponentMetadata` as held in the store: `id` and `type` are taken
verbatim from payloads (hence arbitrary values), `attributes` is the
object's field list. -/
structure Comp where
  id : JVal
  type : JVal
  label : JVal
  attributes : List (String × JVal)
deriving Repr

/-- The `ComponentStore`'s backing `Map<string, ComponentMetadata>`:
insertion-ordered entries with unique keys. -/
abbrev Store := List (JVal × Comp)

/-- `Map.set`: overwrite the value at an existing key in place,
append a new key. -/
def mapSet : Store → JVal → Comp → Store
  | [], k, v => [(k, v)]
  | (k', v') :: rest, k, v =>
    if jvBEq k' k then (k', v) :: rest else (k', v') :: mapSet rest k v

/-- `ComponentStore.addComponent`: keyed by the metadata's own id. -/
def addComponent (s : Store) (c : Comp) : Store :=
  mapSet s c.id c

/-- `ComponentStore.clearComponents`. -/
def clearComponents (_ : Store) : Store := []

/-- `ComponentStore.getAllComponents`: values in insertion order. -/
def getAllComponents (s : Store) : List Comp :=
  s.map (fun p => p.2)

/-- A `Section` of the editor state.  Fields are `JVal` because import
keeps payload fields verbatim (a truthy non-string `id` is stored as-is). -/
structure Sect where
  id : JVal
  title : JVal
  content : JVal
  enabled : JVal
deriving Repr

/-- The mutable state the serializer claims are about: the section list,
the component store and the section-id counter. -/
structure EditorState where
  sections : List Sect
  store : Store
  nextSectionId : Nat
deriving Repr

/-- `generateSectionId`, with the timestamp abstracted away and only the
module-level counter retained (uniqueness within a run comes from the
counter). -/
def genSectionId (n : Nat) : String :=
  "section-" ++ toString n

/-- Modelled from the spec: attribute-based marker scanning.  The sources
delegate `scan` to the DOM (`querySelectorAll('[data-component]')` and
`getAttribute('data-id')`), which is not string code under `src/`; this
scanner recovers, left to right, the value of each `data-id="…"` attribute
occurring in the content string. -/
def scanAux : Nat → List Char → List String
  | 0, _ => []
  | _ + 1, [] => []
  | fuel + 1, c :: rest =>
    if (c :: rest).take 9 = "data-id=\"".data then
      let after := (c :: rest).drop 9
      String.mk (after.takeWhile (fun ch => ch ≠ '"')) ::
        scanAux fuel (after.dropWhile (fun ch => ch ≠ '"'))
    else scanAux fuel rest

/-- Scan a content string for marker ids, in document order. -/
def scanContent (s : String) : List String :=
  scanAux s.data.length s.data

/-- Marker ids of one section's content (a non-string content blob has no
DOM element to scan). -/
def scanIds : JVal → List String
  | .str s => scanContent s
  | _ => []

/-- `getOrderedVisibleComponentIds`: marker ids of every section,
concatenated in section order, duplicates preserved. -/
def getOrderedVisibleComponentIds (st : EditorState) : List String :=
  st.sections.flatMap (fun s => scanIds s.content)

/-- The `orderedVisibleComponents` computation shared by `exportTemplate`,
`openFillTemplate` and `getEditorData`: each visible id looked up in the
store (`allComponents.find(comp => comp.id === id)`), ids without a store
entry silently dropped. -/
def orderedVisibleComponents (st : EditorState) : List Comp :=
  (getOrderedVisibleComponentIds st).filterMap
    (fun i => (getAllComponents st.store).find? (fun c => isStrEq c.id i))

/-- Serialization of one component into the interchange object. -/
def compToJVal (c : Comp) : JVal :=
  .obj [("id", c.id), ("type", c.type), ("label", c.label),
        ("attributes", .obj c.attributes)]

/-- Serialization of one section into the interchange object. -/
def sectToJVal (s : Sect) : JVal :=
  .obj [("id", s.id), ("title", s.title), ("content", s.content),
        ("enabled", s.enabled)]

/-- `exportTemplate`'s interchange object (the section content captured
from the DOM is `section.content` here, the state being in sync). -/
def exportTemplate (st : EditorState) : JVal :=
  .obj [("version", .str "1.0"),
        ("sections", .arr (st.sections.map sectToJVal)),
        ("components", .arr ((orderedVisibleComponents st).map compToJVal))]

/-- The type-specific default options arrays used by import sanitization. -/
def defaultOptions (t : JVal) : JVal :=
  if isStrEq t "dropdown" then
    .arr [.str "Option 1", .str "Option 2", .str "Option 3"]
  else
    .arr [.str "Item 1", .str "Item 2", .str "Item 3"]

/-- The `attributes` object built by `importTemplate`'s sanitizer:
spread of the truthy incoming attributes value, `variableName` defaulted
through `||`, and for `dropdown`/`multi-text-field` the `options` value
replaced by the type-specific defaults when it is falsy or not an
array. -/
def sanitizedAttributes (tv av : JVal) : List (String × JVal) :=
  let vn0 := jsGetOpt av "variableName"
  let vn := if jvTruthy vn0 then vn0 else .str ""
  let base := if jvTruthy av then spreadFields av else []
  let attrs1 := setField base "variableName" vn
  if isStrEq tv "dropdown" || isStrEq tv "multi-text-field" then
    if !jvTruthy ((lookupField attrs1 "options").getD .undefined) ||
        !jvIsArr ((lookupField attrs1 "options").getD .undefined) then
      setField attrs1 "options" (defaultOptions tv)
    else attrs1
  else attrs1

/-- Per-component sanitization inside `importTemplate`: `id`/`type`
verbatim, `label` defaulted through `||`, attributes rebuilt by
`sanitizedAttributes`.  Property access on a `null`/`undefined` list
entry throws (all four reads are on the same value, so they throw
together). -/
def sanitizeComponent (c : JVal) : Except Unit Comp :=
  match jsGetE c "id", jsGetE c "type", jsGetE c "label", jsGetE c "attributes" with
  | .ok idv, .ok tv, .ok lv, .ok av =>
    .ok ⟨idv, tv, (if jvTruthy lv then lv else .str ""), sanitizedAttributes tv av⟩
  | _, _, _, _ => .error ()

/-- `templateData.components.map(...)`: sanitize in order, the first
throw aborting the whole map. -/
def sanitizeComponents : List JVal → Except Unit (List Comp)
  | [] => .ok []
  | c :: rest =>
    match sanitizeComponent c with
    | .error e => .error e
    | .ok s =>
      match sanitizeComponents rest with
      | .error e => .error e
      | .ok ss => .ok (s :: ss)

/-- Per-section sanitization inside `importTemplate`: absent/falsy `id`
replaced by a freshly generated one (bumping the counter), `title` and
`content` defaulted to the empty string, `enabled` defaulted to `true`
only when strictly `undefined`. -/
def sanitizeSection (n : Nat) (s : JVal) : Except Unit (Sect × Nat) :=
  match jsGetE s "id", jsGetE s "title", jsGetE s "content", jsGetE s "enabled" with
  | .ok idv, .ok tv, .ok cv, .ok ev =>
    let idn : JVal × Nat :=
      if jvTruthy idv then (idv, n) else (.str (genSectionId n), n + 1)
    .ok (⟨idn.1,
          if jvTruthy tv then tv else .str "",
          if jvTruthy cv then cv else .str "",
          if jvIsUndefined ev then .bool true else ev⟩, idn.2)
  | _, _, _, _ => .error ()

/-- `templateData.sections.map(...)`, threading the id counter; the counter
advances made before a throw persist. -/
def sanitizeSections (n : Nat) : List JVal → Except Unit (List Sect) × Nat
  | [] => (.ok [], n)
  | s :: rest =>
    match sanitizeSection n s with
    | .error e => (.error e, n)
    | .ok (sec, n1) =>
      match sanitizeSections n1 rest with
      | (.error e, n2) => (.error e, n2)
      | (.ok secs, n2) => (.ok (sec :: secs), n2)

/-- The else-branch of `importTemplate`'s section handling: no imported
section array (or an empty one) yields a single fresh enabled
"Imported Content" section. -/
def importDefaultSection (st : EditorState) : EditorState × Bool :=
  ({ st with
      sections := [⟨.str (genSectionId st.nextSectionId), .str "Imported Content",
                    .str "", .bool true⟩],
      nextSectionId := st.nextSectionId + 1 }, true)

/-- `importTemplate`'s `reader.onload` body on a parsed payload (`none`
models a `JSON.parse` failure).  Returns the state after the `try`/`catch`
and whether the import succeeded.  The order of effects follows the
source: validate, clear the store, sanitize and add components, then
sanitize and set sections; a throw lands in the `catch`, keeping every
mutation already made. -/
def importTemplateRun (st : EditorState) (payload : Option JVal) : EditorState × Bool :=
  match payload with
  | none => (st, false)
  | some p =>
    match jsGetE p "sections" with
    | .error _ => (st, false)
    | .ok secv =>
      if !jvTruthy secv then (st, false)
      else
        match jsGetE p "components" with
        | .error _ => (st, false)
        | .ok compv =>
          match compv with
          | .arr cs =>
            let st1 : EditorState := { st with store := clearComponents st.store }
            match sanitizeComponents cs with
            | .error _ => (st1, false)
            | .ok comps =>
              let st2 : EditorState := { st1 with store := comps.foldl addComponent st1.store }
              match secv with
              | .arr ss =>
                if 0 < ss.length then
                  match sanitizeSections st2.nextSectionId ss with
                  | (.error _, n2) => ({ st2 with nextSectionId := n2 }, false)
                  | (.ok secs, n2) => ({ st2 with sections := secs, nextSectionId := n2 }, true)
                else importDefaultSection st2
              | _ => importDefaultSection st2
          | _ => (st, false)

/-- `removeSection`: refuse (with the "Cannot remove the last section"
notice, reported in the second component) when at most one section
remains, otherwise drop every section with the given id. -/
def removeSection (st : EditorState) (sectionId : JVal) : EditorState × Bool :=
  if st.sections.length ≤ 1 then (st, true)
  else ({ st with sections := st.sections.filter (fun s => !jvBEq s.id sectionId) }, false)

/-- `addSection`: append a fresh enabled section. -/
def addSection (st : EditorState) : EditorState :=
  { st with
      sections := st.sections ++
        [⟨.str (genSectionId st.nextSectionId),
          .str ("Section " ++ toString (st.sections.length + 1)), .str "", .bool true⟩],
      nextSectionId := st.nextSectionId + 1 }

/-- The initial state: the one default section installed on mount. -/
def initState : EditorState :=
  ⟨[⟨.str (genSectionId 0), .str "Section 1", .str "", .bool true⟩], [], 1⟩

/-- States reachable from the initial state through the modelled
user-initiated operations. -/
inductive Reachable : EditorState → Prop
  | init : Reachable initState
  | add {st : EditorState} : Reachable st → Reachable (addSection st)
  | remove {st : EditorState} (sid : JVal) :
      Reachable st → Reachable (removeSection st sid).1
  | imp {st : EditorState} (p : Option JVal) :
      Reachable st → Reachable (importTemplateRun st p).1

/-- One entry of a fill-form field value array.  JavaScript arrays are
heterogeneous; the fill modal stores `string[]` or `boolean[]` values and
inspects only the runtime type of the first element. -/
inductive JElem where
  | s (v : String) : JElem
  | b (v : Bool) : JElem
deriving Repr, DecidableEq

/-- A `FieldValues` entry: `string | string[] | boolean[]`. -/
inductive FieldValue where
  | str (v : String) : FieldValue
  | arr (elems : List JElem) : FieldValue
deriving Repr, DecidableEq

/-- The fill modal's `fieldValues` record, keyed by variable name or id. -/
abbrev FieldValues := String → Option FieldValue

/-- Truthiness of an array element (`checked[index]` is used as a
condition directly). -/
def jelemTruthy : JElem → Bool
  | .s v => v != ""
  | .b bv => bv

/-- JavaScript stringification of an array element (as done by
`Array.prototype.join`). -/
def jelemToString : JElem → String
  | .s v => v
  | .b bv => if bv then "true" else "false"

/-- Truthiness of a field value (`fieldValues[key] || ''`). -/
def fieldValueTruthy : FieldValue → Bool
  | .str v => v != ""
  | .arr _ => true

/-- `setFieldValues({...fieldValues, [key]: value})`. -/
def updateFieldValue (fvs : FieldValues) (key : String) (v : FieldValue) : FieldValues :=
  fun k => if k == key then some v else fvs k

/-- `handleFieldChange`. -/
def handleFieldChange (fvs : FieldValues) (key : String) (v : FieldValue) : FieldValues :=
  updateFieldValue fvs key v

/-- The `currentValues` read at the top of `handleCheckboxChange`: the
stored array when one exists, otherwise (missing or non-array value) the
empty array. -/
def checkboxCurrentValues (fvs : FieldValues) (key : String) : List JElem :=
  match fvs key with
  | some (.arr xs) => xs
  | _ => []

/-- `handleCheckboxChange`: copy the current array (empty when missing or
not an array), pad with `false` while `length <= index`, set the entry,
store it back. -/
def handleCheckboxChange (fvs : FieldValues) (key : String) (index : Nat)
    (checked : Bool) : FieldValues :=
  let currentValues := checkboxCurrentValues fvs key
  let padded := currentValues ++ List.replicate (index + 1 - currentValues.length) (JElem.b false)
  handleFieldChange fvs key (.arr (padded.set index (.b checked)))

/-- A `ComponentMetadata` as consumed by the fill modal: `variableName`
defaulted through `||` (so `""` stands for absent) and `options` present
only when `attributes.options` is an array. -/
structure FComp where
  id : String
  type : String
  label : String
  variableName : String
  options : Option (List String)
deriving Repr, DecidableEq

/-- `componentAttributes.variableName || component.id`. -/
def fieldKey (c : FComp) : String :=
  if c.variableName == "" then c.id else c.variableName

/-- The fill modal's `sectionComponentsMap`: section id to the components
found in that section's content, in insertion (section) order. -/
abbrev SectionComponentsMap := List (String × List FComp)

/-- `sectionComponentsMap[section.id] || []`. -/
def lookupSectionComponents (m : SectionComponentsMap) (sid : String) : List FComp :=
  ((m.find? (fun p => p.1 == sid)).map (fun p => p.2)).getD []

/-- `initializeFieldValues`: one pass over every section's components
(enabled or not), initializing dropdowns to their first option, checkbox
lists to all-`false`, and text fields to the empty string. -/
def initializeFieldValues (componentMap : SectionComponentsMap) : FieldValues :=
  componentMap.foldl
    (fun fvs p =>
      p.2.foldl
        (fun fvs c =>
          let key := fieldKey c
          if c.type == "dropdown" then
            let options := c.options.getD []
            updateFieldValue fvs key (.str (options.headD ""))
          else if c.type == "multi-text-field" then
            let options := c.options.getD []
            updateFieldValue fvs key (.arr (List.replicate options.length (.b false)))
          else updateFieldValue fvs key (.str ""))
        fvs)
    (fun _ => none)

/-- `options.filter((_, index) => index < checked.length ? checked[index] : false)`. -/
def selectedOptions (options : List String) (checked : List JElem) : List String :=
  (options.enum.filter (fun p =>
    match checked[p.1]? with
    | some e => jelemTruthy e
    | none => false)).map (fun p => p.2)

/-- The resolution step of `replaceVariableReferences` for one
`{variableName}` occurrence: a found boolean array is rendered by looking
the component up across every section of the map (the last section with a
match and an options array winning) and comma-joining its selected
options, other arrays are comma-joined, scalars are stringified, and an
unknown name yields the bracketed placeholder. -/
def replaceVariableResolve (fvs : FieldValues) (m : SectionComponentsMap)
    (variableName : String) : String :=
  match fvs variableName with
  | none => "[" ++ variableName ++ "]"
  | some (.str v) => v
  | some (.arr value) =>
    match value with
    | .b _ :: _ =>
      let foundOptions := m.foldl
        (fun acc p =>
          match p.2.find? (fun c => fieldKey c == variableName) with
          | some c =>
            match c.options with
            | some options => selectedOptions options value
            | none => acc
          | none => acc)
        []
      if 0 < foundOptions.length then String.intercalate ", " foundOptions
      else "[None selected]"
    | _ => String.intercalate ", " (value.map jelemToString)

/-- The scan of `text.replace(/\x7b([^\x7d]+)\x7d/g, ...)`: at each `{`
with at least one non-`}` character before the next `}`, emit the resolved
replacement (not rescanned) and continue after the `}`.  Fuel is the
character count; every step consumes at least one character. -/
def replaceVariableReferencesAux (resolve : String → String) :
    Nat → List Char → List Char
  | 0, cs => cs
  | _ + 1, [] => []
  | fuel + 1, c :: rest =>
    if c = '{' then
      match rest.takeWhile (fun ch => ch ≠ '}'), rest.dropWhile (fun ch => ch ≠ '}') with
      | nm :: nms, _ :: afterClose =>
        (resolve (String.mk (nm :: nms))).data ++
          replaceVariableReferencesAux resolve fuel afterClose
      | _, _ => c :: replaceVariableReferencesAux resolve fuel rest
    else c :: replaceVariableReferencesAux resolve fuel rest

/-- `replaceVariableReferences`. -/
def replaceVariableReferences (fvs : FieldValues) (m : SectionComponentsMap)
    (text : String) : String :=
  String.mk (replaceVariableReferencesAux (replaceVariableResolve fvs m)
    text.data.length text.data)

/-- Whether a string-array entry survives `filter(v => v && v.trim())`.
A boolean entry is kept by its own truth value (JavaScript would throw on
`true.trim()`; that crash path is outside every claim). -/
def jsNonBlank : JElem → Bool
  | .s v => v != "" && v.trim != ""
  | .b bv => bv

/-- The replacement value computed for one component's marker in
`generatePreview`: selected options joined with `<br>` for checkbox
fields, non-blank entries joined with `<br>` for other arrays, and scalars
passed through `replaceVariableReferences` when truthy. -/
def componentReplacementValue (fvs : FieldValues) (m : SectionComponentsMap)
    (c : FComp) : String :=
  let key := fieldKey c
  let value : FieldValue :=
    match fvs key with
    | some v => if fieldValueTruthy v then v else .str ""
    | none => .str ""
  if c.type == "multi-text-field" then
    let options := c.options.getD []
    let checked : List JElem :=
      match fvs key with
      | some (.arr xs) => xs
      | _ => List.replicate options.length (.b false)
    String.intercalate "<br>" (selectedOptions options checked)
  else
    match value with
    | .arr xs => String.intercalate "<br>" ((xs.filter jsNonBlank).map jelemToString)
    | .str v => if v != "" then replaceVariableReferences fvs m v else ""

/-- A node of a section's rich content after `cleanHtmlContent`: opaque
text runs interleaved with component markers (the marker's delete button
and data attributes are already stripped; only its element id and label
remain). -/
inductive Node where
  | text (s : String) : Node
  | marker (id : String) (label : String) : Node
deriving Repr, DecidableEq

/-- A section as consumed by the fill modal. -/
structure FSection where
  id : String
  title : String
  content : List Node
  enabled : Bool
deriving Repr, DecidableEq

/-- The global-flagged regex replacement of every marker span carrying the
given element id with the replacement text. -/
def substituteComponent (repl : String) (cid : String) : List Node → List Node :=
  List.map (fun n =>
    match n with
    | .marker i _ => if i == cid then .text repl else n
    | t => t)

/-- Serialization of a cleaned node back to markup: the form
`cleanHtmlContent` leaves a marker span in. -/
def renderNode : Node → String
  | .text s => s
  | .marker i label =>
    "<span id=\"" ++ i ++
      "\" style=\"display: inline; font-weight: normal; background: none; " ++
      "border: none; padding: 0; margin: 0;\">" ++ label ++ "</span>"

/-- Serialization of cleaned content. -/
def renderContent (ns : List Node) : String :=
  String.join (ns.map renderNode)

/-- One enabled section's processing inside `generatePreview`: substitute
each of the section's components' markers, then resolve the remaining
`{variableName}` references over the whole section text. -/
def processSection (fvs : FieldValues) (m : SectionComponentsMap)
    (s : FSection) : String :=
  let substituted := (lookupSectionComponents m s.id).foldl
    (fun ns c => substituteComponent (componentReplacementValue fvs m c) c.id ns)
    s.content
  replaceVariableReferences fvs m (renderContent substituted)

/-- `generatePreview`: concatenate, in section order, the wrapped
processed text of the sections whose toggle state is truthy, skipping the
rest. -/
def generatePreview (sections : List FSection) (sectionStates : String → Bool)
    (m : SectionComponentsMap) (fvs : FieldValues) : String :=
  sections.foldl
    (fun acc s =>
      if sectionStates s.id then
        acc ++ "<div class=\"mb-6\">" ++ processSection fvs m s ++ "</div>"
      else acc)
    ""

/-- The regex `/\n\x7b3,\x7d/g → "\n\n"` of `copyToClipboard`: running
count of the newline run seen so far; the first two newlines of a run are
kept, the rest dropped. -/
def collapseNewlinesAux : Nat → List Char → List Char
  | _, [] => []
  | run, c :: rest =>
    if c = '\n' then
      if run < 2 then c :: collapseNewlinesAux (run + 1) rest
      else collapseNewlinesAux (run + 1) rest
    else c :: collapseNewlinesAux 0 rest

/-- Collapse every run of three or more newlines to exactly two. -/
def collapseNewlines (cs : List Char) : List Char :=
  collapseNewlinesAux 0 cs

/-- The whitespace class trimmed by `String.prototype.trim`. -/
def jsWhitespace (c : Char) : Bool :=
  c = ' ' || c = '\n' || c = '\t' || c = '\r' || c = '\x0b' || c = '\x0c'

/-- `String.prototype.trim` over a character list. -/
def jsTrim (cs : List Char) : List Char :=
  ((cs.dropWhile jsWhitespace).reverse.dropWhile jsWhitespace).reverse

/-- `sectionText.replace(/\n\x7b3,\x7d/g, "\n\n").trim()` applied to one
section's extracted text (the DOM text extraction that turns `<br>`,
paragraphs and list items into newlines supplies the input string). -/
def flattenSectionText (s : String) : String :=
  String.mk (jsTrim (collapseNewlines s.data))

/-- The `textSections` array: flattened blocks pushed only when nonempty. -/
def collectTextSections (blocks : List String) : List String :=
  blocks.foldl
    (fun acc b =>
      let t := flattenSectionText b
      if t ≠ "" then acc ++ [t] else acc)
    []

/-- `textSections.join('\n\n')`. -/
def joinWithDoubleNewline : List String → String
  | [] => ""
  | [b] => b
  | b :: c :: rest => b ++ "\n\n" ++ joinWithDoubleNewline (c :: rest)

/-- The final clipboard text of `copyToClipboard`, as a function of the
per-section extracted texts. -/
def copyToClipboardText (blocks : List String) : String :=
  joinWithDoubleNewline (collectTextSections blocks)

/-- Whether a character list contains three consecutive newlines. -/
def hasTripleNewline : List Char → Bool
  | a :: b :: c :: rest =>
    (a = '\n' && b = '\n' && c = '\n') || hasTripleNewline (b :: c :: rest)
  | _ => false

/-- The pre-sanitization `options` value of an imported component, after
attribute spreading (reading through the same path `importTemplate`'s
sanitizer uses before the backfill check). -/
def importedOptions (c : JVal) : JVal :=
  let av := jsGetOpt c "attributes"
  (lookupField (if jvTruthy av then spreadFields av else []) "options").getD .undefined

/-- A single-choice component whose `options` is present but the empty
array. -/
def emptyOptionsDropdown : JVal :=
  .obj [("id", .str "c1"), ("type", .str "dropdown"), ("label", .str "Status"),
        ("attributes", .obj [("variableName", .str "v"), ("options", .arr [])])]

/-- A multi-choice component with no `options` field at all. -/
def missingOptionsMultiField : JVal :=
  .obj [("id", .str "c2"), ("type", .str "multi-text-field"), ("label", .str "Items"),
        ("attributes", .obj [("variableName", .str "w")])]

/-- A small pre-import editor state with one section and one stored
component. -/
def demoState : EditorState :=
  ⟨[⟨.str "sx", .str "T", .str "", .bool true⟩],
   [(.str "A", ⟨.str "A", .str "text-field", .str "lab", [("variableName", .str "")]⟩)],
   5⟩

/-- A payload whose `sections` field is present and truthy but not a
sequence, with a well-formed `components` sequence. -/
def truthyNonArraySectionsPayload : JVal :=
  .obj [("sections", .obj []), ("components", .arr [])]

/-- A payload that passes validation but whose `components` sequence
contains `null`, making sanitization throw. -/
def nullComponentPayload : JVal :=
  .obj [("sections", .arr [.obj [("id", .str "s1")]]),
        ("components", .arr [.null])]

/-- A payload importing two sections that share the id `"A"`. -/
def duplicateSectionIdPayload : JVal :=
  .obj [("sections", .arr [.obj [("id", .str "A")], .obj [("id", .str "A")]]),
        ("components", .arr [])]

/-- A state whose single section's content carries the same marker id
twice, with that id present in the store. -/
def duplicateMarkerState : EditorState :=
  ⟨[⟨.str "s1", .str "T",
     .str "<span data-component=\"true\" data-id=\"A\">x</span> and <span data-component=\"true\" data-id=\"A\">y</span>",
     .bool true⟩],
   [(.str "A", ⟨.str "A", .str "text-field", .str "lab", [("variableName", .str "")]⟩)],
   3⟩

/-- The multi-choice component of the multi-choice substitution scenario. -/
def colorsComponent : FComp :=
  ⟨"c1", "multi-text-field", "Colors", "colors", some ["Red", "Green", "Blue"]⟩

/-- Field values holding the selection flags `[true, false, true]` for the
colors component. -/
def colorsFieldValues : FieldValues :=
  fun k => if k == "colors" then some (.arr [.b true, .b false, .b true]) else none

/-- Section-components map of the multi-choice substitution scenario: the
marker lives in the first section, the reference in the second. -/
def colorsMap : SectionComponentsMap :=
  [("s1", [colorsComponent]), ("s2", [])]

/-- Sections of the multi-choice substitution scenario. -/
def colorsSections : List FSection :=
  [⟨"s1", "T", [.marker "c1" "Colors"], true⟩,
   ⟨"s2", "U", [.text "Choice: {colors}"], true⟩]

/-- A well-formed one-section document whose content references the one
stored dropdown component, used to exercise the round trip. -/
def roundTripComp : Comp :=
  ⟨.str "c1", .str "dropdown", .str "Dropdown: Status",
   [("variableName", .str "v"), ("options", .arr [.str "O1", .str "O2"])]⟩

/-- The editor state of the round-trip scenario. -/
def roundTripState : EditorState :=
  ⟨[⟨.str "s1", .str "T",
     .str "pre <span data-component=\"true\" data-id=\"c1\">x</span> post",
     .bool true⟩],
   [(.str "c1", roundTripComp)], 7⟩

/-- C1 counterexample: importing a single-choice (dropdown) component
whose `attributes.options` is present but the empty array keeps the empty
array — it is not replaced by the three-entry default, because the
sanitizer's check `!options || !Array.isArray(options)` is false for `[]`
(a truthy array). -/
theorem c1_counterexample :
    sanitizeComponent emptyOptionsDropdown =
      .ok ⟨.str "c1", .str "dropdown", .str "Status",
           [("variableName", .str "v"), ("options", .arr [])]⟩ ∧
    lookupField [("variableName", JVal.str "v"), ("options", JVal.arr [])] "options" =
      some (.arr []) := by
  exact ⟨rfl, rfl⟩

/-- C2 counterexample: a payload whose `sections` field is a truthy
non-sequence (`{}`), with `components` a sequence, is not rejected: the
validation `!templateData.sections || !Array.isArray(templateData.components)`
passes, the store is cleared and a fresh default "Imported Content"
section is committed, reported as a successful import. -/
theorem c2_counterexample :
    jvTruthy (jsGetOpt truthyNonArraySectionsPayload "sections") = true ∧
    jvIsArr (jsGetOpt truthyNonArraySectionsPayload "sections") = false ∧
    importTemplateRun demoState (some truthyNonArraySectionsPayload) =
      (⟨[⟨.str "section-5", .str "Imported Content", .str "", .bool true⟩], [], 6⟩,
       true) := by
  exact ⟨rfl, rfl, rfl⟩

/-- C3 counterexample: a payload that passes validation but whose
`components` sequence contains `null` makes sanitization throw after
`clearComponents()` has already run; the failed import leaves the store
empty although it held one component before. -/
theorem c3_counterexample :
    importTemplateRun demoState (some nullComponentPayload) =
      (⟨demoState.sections, [], demoState.nextSectionId⟩, false) ∧
    demoState.store.length = 1 := by
  exact ⟨rfl, rfl⟩

/-- C4 counterexample: with the same marker id occurring twice in one
section's content and backed by a store entry, the ordered
visible-component list contains that component twice — it is not
deduplicated to the first occurrence. -/
theorem c4_counterexample :
    (orderedVisibleComponents duplicateMarkerState).map (fun c => c.id) =
      [.str "A", .str "A"] := by
  rfl

/-- C8 counterexample: a state with zero sections is reachable — import a
payload with two sections sharing id "A" (import does not deduplicate
section ids), then remove section "A": the guard `sections.length <= 1`
does not fire at length 2, and the filter drops both sections. -/
theorem c8_counterexample :
    Reachable ⟨[], [], 1⟩ ∧ (⟨[], [], 1⟩ : EditorState).sections.length = 0 := by
  refine ⟨?_, rfl⟩
  have h0 : Reachable initState := Reachable.init
  have h1 := Reachable.imp (some duplicateSectionIdPayload) h0
  have h2 := Reachable.remove (JVal.str "A") h1
  exact h2

/-- C6: a multi-choice component with options `["Red","Green","Blue"]`
and selection flags `[true,false,true]` has its marker replaced by
`"Red<br>Blue"` in the preview, while a `{colors}` reference to it in
free text renders as `"Red, Blue"`. -/
theorem c6_multi_choice_substitution :
    componentReplacementValue colorsFieldValues colorsMap colorsComponent = "Red<br>Blue" ∧
    replaceVariableResolve colorsFieldValues colorsMap "colors" = "Red, Blue" ∧
    generatePreview colorsSections (fun _ => true) colorsMap colorsFieldValues =
      "<div class=\"mb-6\">Red<br>Blue</div><div class=\"mb-6\">Choice: Red, Blue</div>" := by
  exact ⟨rfl, rfl, rfl⟩

/-- C10: `handleCheckboxChange key index checked` stores an array of
length `max (previous length) (index+1)` whose entry at `index` is the
new flag, whose other previously-present entries are unchanged, and whose
newly created entries below `index` are `false`; a missing or non-array
prior value behaves as the empty array (it is `checkboxCurrentValues`). -/
theorem c10_handleCheckboxChange (fvs : FieldValues) (key : String) (index : Nat)
    (checked : Bool) :
    ∃ res : List JElem,
      handleCheckboxChange fvs key index checked key = some (.arr res) ∧
      res.length = max (checkboxCurrentValues fvs key).length (index + 1) ∧
      res[index]? = some (.b checked) ∧
      (∀ j, j < (checkboxCurrentValues fvs key).length → j ≠ index →
        res[j]? = (checkboxCurrentValues fvs key)[j]?) ∧
      (∀ j, (checkboxCurrentValues fvs key).length ≤ j → j < index →
        res[j]? = some (.b false)) := by
  set cur := checkboxCurrentValues fvs key with hcur
  set padded := cur ++ List.replicate (index + 1 - cur.length) (JElem.b false) with hpad
  have hplen : padded.length = max cur.length (index + 1) := by
    simp [hpad]
    omega
  have hidx : index < padded.length := by omega
  refine ⟨padded.set index (.b checked), ?_, ?_, ?_, ?_, ?_⟩
  · simp [handleCheckboxChange, handleFieldChange, updateFieldValue, hcur, hpad]
  · simp [List.length_set, hplen]
  · simp [List.getElem?_set_self', List.getElem?_eq_getElem hidx]
  · intro j hj hne
    rw [List.getElem?_set_ne (fun h => hne h.symm)]
    exact List.getElem?_append_left hj
  · intro j hj1 hj2
    rw [List.getElem?_set_ne (by omega)]
    rw [hpad, List.getElem?_append_right hj1]
    have : j - cur.length < index + 1 - cur.length := by omega
    simp [List.getElem?_replicate, this]

/-- Helper: the validation step of import — a falsy (or throwing)
`sections` read, or a non-array `components` read, rejects before any
mutation. -/
theorem import_validation_reject (st : EditorState) (p : JVal)
    (h : (∀ v, jsGetE p "sections" = .ok v → jvTruthy v = false) ∨
         (∃ v, jsGetE p "sections" = .ok v ∧ jvTruthy v = true ∧
           ∀ w, jsGetE p "components" = .ok w → jvIsArr w = false)) :
    importTemplateRun st (some p) = (st, false) := by
  rcases h1 : jsGetE p "sections" with e | secv
  · simp [importTemplateRun, h1]
  · rcases h with h | ⟨v, hv, ht, hc⟩
    · have := h secv h1
      simp [importTemplateRun, h1, this]
    · rw [h1] at hv
      injection hv with hv
      subst hv
      rcases h2 : jsGetE p "components" with e | compv
      · simp [importTemplateRun, h1, ht, h2]
      · have := hc compv h2
        cases compv <;> simp_all [importTemplateRun, jvIsArr]

/-- C2 (amended): import rejects, with the generic invalid-format error
and no state change, whenever the parsed payload's `sections` field is
falsy (absent, `null`, `""`, `0`, `false`) or unreadable, or its
`components` field is missing or not a sequence.  (A present truthy
non-sequence `sections` value is not rejected — see the counterexample.) -/
theorem c2_amended (st : EditorState) (p : JVal)
    (h : (∀ v, jsGetE p "sections" = .ok v → jvTruthy v = false) ∨
         (∃ v, jsGetE p "sections" = .ok v ∧ jvTruthy v = true ∧
           ∀ w, jsGetE p "components" = .ok w → jvIsArr w = false)) :
    importTemplateRun st (some p) = (st, false) :=
  import_validation_reject st p h

/-- Witness for the amended C2 at a concrete input: a payload with no
`sections` field at all is rejected with the state unchanged. -/
theorem c2_witness :
    importTemplateRun demoState (some (.obj [("components", .arr [])])) =
      (demoState, false) := by
  apply c2_amended
  left
  intro v hv
  injection hv with hv
  subst hv
  rfl

/-- C3 (amended): import is all-or-nothing for parse failures and
validation (format) failures — the store and sections are exactly as
before — and the section list is never modified by any failed import;
but the store is cleared before component sanitization runs, so an error
thrown during sanitization (for example a `null` entry in `components`)
leaves the store empty rather than restored. -/
theorem c3_amended :
    (∀ st : EditorState, importTemplateRun st none = (st, false)) ∧
    (∀ (st : EditorState) (p : JVal),
      ((∀ v, jsGetE p "sections" = .ok v → jvTruthy v = false) ∨
       (∃ v, jsGetE p "sections" = .ok v ∧ jvTruthy v = true ∧
         ∀ w, jsGetE p "components" = .ok w → jvIsArr w = false)) →
      importTemplateRun st (some p) = (st, false)) ∧
    (∀ (st : EditorState) (p : JVal) (secv : JVal) (cs : List JVal),
      jsGetE p "sections" = .ok secv → jvTruthy secv = true →
      jsGetE p "components" = .ok (.arr cs) →
      sanitizeComponents cs = .error () →
      importTemplateRun st (some p) = ({ st with store := [] }, false)) ∧
    (∀ (st : EditorState) (p : Option JVal),
      (importTemplateRun st p).2 = false →
      (importTemplateRun st p).1.sections = st.sections) := by
  refine ⟨fun st => rfl, fun st p h => import_validation_reject st p h, ?_, ?_⟩
  · intro st p secv cs h1 h2 h3 h4
    simp [importTemplateRun, h1, h2, h3, h4, clearComponents]
  · intro st p h
    cases p with
    | none => rfl
    | some q =>
      rcases h1 : jsGetE q "sections" with e | secv
      · simp [importTemplateRun, h1]
      · cases hT : jvTruthy secv with
        | false => simp [importTemplateRun, h1, hT]
        | true =>
          rcases h2 : jsGetE q "components" with e | compv
          · simp [importTemplateRun, h1, hT, h2]
          · cases compv <;> simp_all [importTemplateRun, h1, hT, h2]
            case arr cs =>
              rcases h3 : sanitizeComponents cs with e | comps
              · simp_all [h3, clearComponents]
              · simp_all [h3]
                cases secv <;> simp_all [importDefaultSection]
                case arr ss =>
                  by_cases h5 : 0 < ss.length
                  · simp_all [h5]
                    rcases h6 : sanitizeSections
                        ({ st with store := (comps.foldl addComponent (clearComponents st.store)) } :
                          EditorState).nextSectionId ss with ⟨res, n2⟩
                    cases res <;> simp_all [h6]
                  · simp_all [h5, importDefaultSection]

/-- Witness for the amended C3 at a concrete input: the null-component
payload fails after the clear, leaving the sections untouched and the
store empty. -/
theorem c3_witness :
    importTemplateRun demoState (some nullComponentPayload) =
      ({ demoState with store := [] }, false) :=
  c3_amended.2.2.1 demoState nullComponentPayload (.arr [.obj [("id", .str "s1")]])
    [.null] rfl rfl rfl rfl

/-- Helper: length of a filter by a negated predicate. -/
theorem length_filter_not (p : α → Bool) (l : List α) :
    (l.filter (fun x => !p x)).length = l.length - l.countP p := by
  induction l with
  | nil => rfl
  | cons x xs ih =>
    have hle : xs.countP p ≤ xs.length := List.countP_le_length p
    cases hx : p x <;>
      simp [List.filter_cons, List.countP_cons, hx, ih] <;> omega

/-- C8 (amended): removing a section when exactly one remains is a no-op
reported as an error; and from any state with at least one section in
which at most one section carries the removed id (in particular whenever
section ids are pairwise distinct), at least one section survives the
removal.  (Import does not deduplicate section ids, so a state violating
that proviso can reach zero sections — see the counterexample.) -/
theorem c8_amended (st : EditorState) (sid : JVal) :
    (st.sections.length = 1 → removeSection st sid = (st, true)) ∧
    (1 ≤ st.sections.length →
      st.sections.countP (fun s => jvBEq s.id sid) ≤ 1 →
      1 ≤ (removeSection st sid).1.sections.length) := by
  constructor
  · intro h1
    simp [removeSection, h1]
  · intro h1 h2
    by_cases hle : st.sections.length ≤ 1
    · simp [removeSection, hle]
      exact h1
    · simp [removeSection, hle]
      rw [length_filter_not]
      omega

/-- Witness for the amended C8 at concrete inputs: a one-section state is
left unchanged with the error notice, and a two-section state with
distinct ids keeps at least one section. -/
theorem c8_witness :
    removeSection ⟨[⟨.str "only", .str "S", .str "", .bool true⟩], [], 1⟩ (.str "only") =
      (⟨[⟨.str "only", .str "S", .str "", .bool true⟩], [], 1⟩, true) ∧
    1 ≤ (removeSection
      ⟨[⟨.str "a", .str "S", .str "", .bool true⟩, ⟨.str "b", .str "S", .str "", .bool true⟩],
       [], 2⟩ (.str "a")).1.sections.length := by
  constructor
  · exact (c8_amended ⟨[⟨.str "only", .str "S", .str "", .bool true⟩], [], 1⟩ (.str "only")).1 rfl
  · exact (c8_amended
      ⟨[⟨.str "a", .str "S", .str "", .bool true⟩, ⟨.str "b", .str "S", .str "", .bool true⟩],
       [], 2⟩ (.str "a")).2 (by decide) (by decide)

/-- Helper: reading back a field just written. -/
theorem lookupField_setField_self (fs : List (String × JVal)) (k : String) (v : JVal) :
    lookupField (setField fs k v) k = some v := by
  induction fs with
  | nil => simp [setField, lookupField]
  | cons p rest ih =>
    obtain ⟨k', v'⟩ := p
    by_cases h : k' = k
    · simp [setField, lookupField, h]
    · simpa [setField, lookupField, h] using ih

/-- Helper: writing one field does not disturb another. -/
theorem lookupField_setField_ne (fs : List (String × JVal)) (k k' : String) (v : JVal)
    (h : k ≠ k') :
    lookupField (setField fs k v) k' = lookupField fs k' := by
  have hb : (k == k') = false := beq_eq_false_iff_ne.mpr h
  induction fs with
  | nil => simp [setField, lookupField, List.find?, hb]
  | cons p rest ih =>
    obtain ⟨k'', v''⟩ := p
    by_cases h2 : k'' = k
    · subst h2
      simp [setField, lookupField, List.find?, hb]
    · have h2b : (k'' == k) = false := beq_eq_false_iff_ne.mpr h2
      by_cases h3 : k'' = k'
      · subst h3
        simp [setField, lookupField, List.find?, h2b]
      · have h3b : (k'' == k') = false := beq_eq_false_iff_ne.mpr h3
        simpa [setField, lookupField, List.find?, h2b, h3b] using ih

/-- Helper: the sanitized attributes of a choice-typed component keep a
present options array verbatim and otherwise install the defaults. -/
theorem sanitizedAttributes_options (tv av : JVal)
    (ht : (isStrEq tv "dropdown" || isStrEq tv "multi-text-field") = true) :
    (jvIsArr ((lookupField (if jvTruthy av then spreadFields av else []) "options").getD .undefined)
        = false →
      lookupField (sanitizedAttributes tv av) "options" = some (defaultOptions tv)) ∧
    (∀ xs,
      (lookupField (if jvTruthy av then spreadFields av else []) "options").getD .undefined
          = .arr xs →
      lookupField (sanitizedAttributes tv av) "options" = some (.arr xs)) := by
  have hopts : lookupField
      (setField (if jvTruthy av then spreadFields av else []) "variableName"
        (if jvTruthy (jsGetOpt av "variableName") then jsGetOpt av "variableName"
         else JVal.str ""))
      "options" = lookupField (if jvTruthy av then spreadFields av else []) "options" :=
    lookupField_setField_ne _ "variableName" "options" _ (by decide)
  constructor
  · intro hna
    simp only [sanitizedAttributes, ht, if_true, hopts]
    have hcond : (!jvTruthy ((lookupField (if jvTruthy av then spreadFields av else [])
        "options").getD .undefined) ||
        !jvIsArr ((lookupField (if jvTruthy av then spreadFields av else [])
        "options").getD .undefined)) = true := by
      simp [hna]
    simp only [hcond, if_true]
    exact lookupField_setField_self _ "options" (defaultOptions tv)
  · intro xs hxs
    have hsome : lookupField (if jvTruthy av then spreadFields av else []) "options" =
        some (.arr xs) := by
      cases hb : lookupField (if jvTruthy av then spreadFields av else []) "options" with
      | none => rw [hb] at hxs; simp at hxs
      | some w => rw [hb] at hxs; simp at hxs; rw [hxs]
    have hcond : (!jvTruthy ((lookupField (if jvTruthy av then spreadFields av else [])
        "options").getD .undefined) ||
        !jvIsArr ((lookupField (if jvTruthy av then spreadFields av else [])
        "options").getD .undefined)) = false := by
      rw [hsome]
      simp [jvTruthy, jvIsArr]
    simp only [sanitizedAttributes, ht, if_true, hopts, hcond]
    rw [if_neg (by simp)]
    rw [hopts]
    exact hsome

/-- C1 (amended): for an imported single-choice (dropdown) or multi-choice
(multi-text-field) component, sanitization replaces `attributes.options`
by the three-entry type-specific default sequence exactly when the
incoming options value is absent, falsy or not a sequence; a present
sequence — including the empty sequence — is kept verbatim, so an
imported empty options sequence stays empty rather than being
backfilled. -/
theorem c1_amended (c : JVal) (comp : Comp)
    (h : sanitizeComponent c = .ok comp)
    (ht : (isStrEq comp.type "dropdown" || isStrEq comp.type "multi-text-field") = true) :
    (jvIsArr (importedOptions c) = false →
      lookupField comp.attributes "options" = some (defaultOptions comp.type)) ∧
    (∀ xs, importedOptions c = .arr xs →
      lookupField comp.attributes "options" = some (.arr xs)) ∧
    defaultOptions (.str "dropdown") =
      .arr [.str "Option 1", .str "Option 2", .str "Option 3"] ∧
    defaultOptions (.str "multi-text-field") =
      .arr [.str "Item 1", .str "Item 2", .str "Item 3"] := by
  cases c with
  | null => simp [sanitizeComponent, jsGetE] at h
  | undefined => simp [sanitizeComponent, jsGetE] at h
  | bool b => injection h with h'; subst h'; simp [isStrEq] at ht
  | num n => injection h with h'; subst h'; simp [isStrEq] at ht
  | str s => injection h with h'; subst h'; simp [isStrEq] at ht
  | arr xs => injection h with h'; subst h'; simp [isStrEq] at ht
  | obj fs =>
    injection h with h'
    subst h'
    have hav : importedOptions (.obj fs) =
        (lookupField (if jvTruthy ((lookupField fs "attributes").getD .undefined)
          then spreadFields ((lookupField fs "attributes").getD .undefined) else [])
          "options").getD .undefined := rfl
    have hmain := sanitizedAttributes_options ((lookupField fs "type").getD .undefined)
      ((lookupField fs "attributes").getD .undefined) ht
    exact ⟨fun hna => hmain.1 (hav ▸ hna), fun xs hxs => hmain.2 xs (hav ▸ hxs), rfl, rfl⟩

/-- Witness for the amended C1 at a concrete input: a multi-choice
component with no `options` field gets the three-entry multi-choice
default. -/
theorem c1_witness :
    lookupField [("variableName", JVal.str "w"),
      ("options", JVal.arr [.str "Item 1", .str "Item 2", .str "Item 3"])] "options" =
      some (defaultOptions (JVal.str "multi-text-field")) := by
  have h := c1_amended missingOptionsMultiField
    ⟨.str "c2", .str "multi-text-field", .str "Items",
     [("variableName", .str "w"),
      ("options", .arr [.str "Item 1", .str "Item 2", .str "Item 3"])]⟩ rfl rfl
  exact h.1 rfl

/-- Helper: `===` against a string literal succeeds only on that string. -/
theorem isStrEq_eq (v : JVal) (s : String) (h : isStrEq v s = true) : v = .str s := by
  cases v <;> simp_all [isStrEq]

/-- Helper: mapping ids over a filter-map whose hits carry their key. -/
theorem filterMap_map_id_eq (ids : List String) (g : String → Option Comp)
    (hg : ∀ i c, g i = some c → c.id = .str i) :
    (ids.filterMap g).map (fun c => c.id) =
      (ids.filter (fun i => (g i).isSome)).map JVal.str := by
  induction ids with
  | nil => rfl
  | cons i rest ih =>
    cases hgi : g i with
    | none => simp [List.filterMap_cons, List.filter_cons, hgi, ih]
    | some c =>
      have hid := hg i c hgi
      simp [List.filterMap_cons, List.filter_cons, hgi, hid, ih]

/-- C4 (amended): the ordered visible-component list used for export and
for the fill form is the scanned marker-id sequence with every id lacking
a store entry silently dropped and every remaining occurrence kept — ids
appear once per marker occurrence, in scan order, so a duplicated marker
id yields a duplicated entry rather than being deduplicated to its first
occurrence. -/
theorem c4_amended (st : EditorState) :
    (orderedVisibleComponents st).map (fun c => c.id) =
      ((getOrderedVisibleComponentIds st).filter
        (fun i => ((getAllComponents st.store).find? (fun c => isStrEq c.id i)).isSome)).map
        JVal.str := by
  apply filterMap_map_id_eq
  intro i c h
  exact isStrEq_eq _ _ (by simpa using List.find?_some h)

/-- Helper: a fold that skips disabled sections equals the fold over the
enabled sections only. -/
theorem generatePreview_filter (sections : List FSection) (states : String → Bool)
    (m : SectionComponentsMap) (fvs : FieldValues) (acc : String) :
    sections.foldl
      (fun acc s =>
        if states s.id then
          acc ++ "<div class=\"mb-6\">" ++ processSection fvs m s ++ "</div>"
        else acc) acc =
    (sections.filter (fun s => states s.id)).foldl
      (fun acc s =>
        if states s.id then
          acc ++ "<div class=\"mb-6\">" ++ processSection fvs m s ++ "</div>"
        else acc) acc := by
  induction sections generalizing acc with
  | nil => rfl
  | cons s rest ih =>
    cases hs : states s.id with
    | false => simp [List.filter_cons, hs, ih]
    | true => simp [List.filter_cons, hs, ih]

/-- C7: the preview is built from enabled sections only (it equals the
preview of the filtered section list), and a `{x}` reference in an
enabled section still resolves to the value of a component defined only
in a disabled section, because `initializeFieldValues` initializes and
`replaceVariableReferences` looks values up across every section of the
map, ignoring enablement: with the defining dropdown living in disabled
section "s2", the enabled section's `{x}` renders as that dropdown's
first option and the disabled section's content contributes nothing. -/
theorem c7_disabled_section_exclusion :
    (∀ (sections : List FSection) (states : String → Bool)
        (m : SectionComponentsMap) (fvs : FieldValues),
      generatePreview sections states m fvs =
        generatePreview (sections.filter (fun s => states s.id)) states m fvs) ∧
    (∀ (o : String) (c2 : List Node),
      (initializeFieldValues [("s1", []), ("s2", [⟨"c9", "dropdown", "L", "x", some [o]⟩])]) "x"
        = some (.str o) ∧
      generatePreview
        [⟨"s1", "A", [.text "pre {x} post"], true⟩, ⟨"s2", "B", c2, true⟩]
        (fun i => i == "s1")
        [("s1", []), ("s2", [⟨"c9", "dropdown", "L", "x", some [o]⟩])]
        (initializeFieldValues [("s1", []), ("s2", [⟨"c9", "dropdown", "L", "x", some [o]⟩])])
        = "<div class=\"mb-6\">pre " ++ o ++ " post</div>") := by
  constructor
  · intro sections states m fvs
    exact generatePreview_filter sections states m fvs ""
  · intro o c2
    refine ⟨rfl, ?_⟩
    show ("" ++ "<div class=\"mb-6\">" ++
        String.mk ('p' :: 'r' :: 'e' :: ' ' ::
          (o.data ++ (' ' :: 'p' :: 'o' :: 's' :: 't' :: []))) ++ "</div>")
      = "<div class=\"mb-6\">pre " ++ o ++ " post</div>"
    apply String.ext
    simp [String.data_append]

/-- Helper: three consecutive newlines survive prepending a character. -/
theorem hasTriple_cons_mono (x : Char) (l : List Char)
    (h : hasTripleNewline l = true) : hasTripleNewline (x :: l) = true := by
  cases l with
  | nil => simp [hasTripleNewline] at h
  | cons a l' =>
    cases l' with
    | nil => simp [hasTripleNewline] at h
    | cons b l'' => simp [hasTripleNewline, h]

/-- Helper: a triple inside a prefix survives appending. -/
theorem hasTriple_append_left (u v : List Char)
    (h : hasTripleNewline u = true) : hasTripleNewline (u ++ v) = true := by
  induction u with
  | nil => simp [hasTripleNewline] at h
  | cons a u ih =>
    cases u with
    | nil => simp [hasTripleNewline] at h
    | cons b u' =>
      cases u' with
      | nil => simp [hasTripleNewline] at h
      | cons c u'' =>
        simp only [hasTripleNewline, Bool.or_eq_true] at h
        rcases h with h1 | h2
        · simp [List.cons_append, hasTripleNewline, h1]
        · have := ih h2
          simp only [List.cons_append] at this ⊢
          simp [hasTripleNewline, this]

/-- Helper: a triple inside a suffix survives prepending. -/
theorem hasTriple_append_right (u v : List Char)
    (h : hasTripleNewline v = true) : hasTripleNewline (u ++ v) = true := by
  induction u with
  | nil => simpa using h
  | cons a u ih => simpa using hasTriple_cons_mono a (u ++ v) ih

/-- Helper: triple-freedom passes to prefixes. -/
theorem noTriple_prefix (u t : List Char)
    (h : hasTripleNewline (u ++ t) = false) : hasTripleNewline u = false := by
  cases hu : hasTripleNewline u with
  | false => rfl
  | true => rw [hasTriple_append_left u t hu] at h; cases h

/-- Helper: triple-freedom passes to suffixes. -/
theorem noTriple_suffix (u t : List Char)
    (h : hasTripleNewline (u ++ t) = false) : hasTripleNewline t = false := by
  cases ht : hasTripleNewline t with
  | false => rfl
  | true => rw [hasTriple_append_right u t ht] at h; cases h

/-- Helper: triple-freedom passes to tails. -/
theorem noTriple_tail (a : Char) (l : List Char)
    (h : hasTripleNewline (a :: l) = false) : hasTripleNewline l = false :=
  noTriple_suffix [a] l h

/-- Helper: a non-newline head never takes part in a triple. -/
theorem hasTriple_cons_of_ne (c : Char) (l : List Char) (hc : c ≠ '\n') :
    hasTripleNewline (c :: l) = hasTripleNewline l := by
  cases l with
  | nil => simp [hasTripleNewline]
  | cons a l' =>
    cases l' with
    | nil => simp [hasTripleNewline]
    | cons b l'' => simp [hasTripleNewline, hc]

/-- Helper: at most two newlines, then a non-newline, then triple-free
text is triple-free. -/
theorem hasTriple_pad (j : Nat) (hj : j ≤ 2) (c : Char) (hc : c ≠ '\n') (l : List Char)
    (hl : hasTripleNewline l = false) :
    hasTripleNewline (List.replicate j '\n' ++ c :: l) = false := by
  have h0 : hasTripleNewline (c :: l) = false := by
    rw [hasTriple_cons_of_ne c l hc]; exact hl
  have h1 : hasTripleNewline ('\n' :: c :: l) = false := by
    cases l with
    | nil => rfl
    | cons a l' => simp [hasTripleNewline, hc, h0]
  have hcase : j = 0 ∨ j = 1 ∨ j = 2 := by omega
  rcases hcase with h | h | h <;> subst h
  · simpa using h0
  · have hr : List.replicate 1 '\n' ++ c :: l = '\n' :: c :: l := by simp [List.replicate]
    rw [hr]; exact h1
  · have : List.replicate 2 '\n' ++ c :: l = '\n' :: '\n' :: c :: l := by
      simp [List.replicate]
    rw [this]
    cases l with
    | nil => simp [hasTripleNewline, hc]
    | cons a l' =>
      simp only [hasTripleNewline, Bool.or_eq_true]
      simp [hc, noTriple_tail c (a :: l') h0, hasTriple_cons_of_ne c (a :: l') hc]

/-- Helper: the output of the newline-collapsing scan, preceded by the
newlines just emitted, never holds three consecutive newlines. -/
theorem collapse_noTriple (cs : List Char) : ∀ k : Nat,
    hasTripleNewline (List.replicate (min k 2) '\n' ++ collapseNewlinesAux k cs) = false := by
  induction cs with
  | nil =>
    intro k
    have hcase : min k 2 = 0 ∨ min k 2 = 1 ∨ min k 2 = 2 := by omega
    rcases hcase with h | h | h <;> rw [collapseNewlinesAux, List.append_nil, h] <;> decide
  | cons c rest ih =>
    intro k
    by_cases hc : c = '\n'
    · subst hc
      by_cases hk : k < 2
      · rw [show collapseNewlinesAux k ('\n' :: rest) = '\n' :: collapseNewlinesAux (k + 1) rest
            from by simp [collapseNewlinesAux, hk]]
        have hmin : min k 2 = k := by omega
        have hmin1 : min (k + 1) 2 = k + 1 := by omega
        rw [hmin]
        have hsh : List.replicate k '\n' ++ '\n' :: collapseNewlinesAux (k + 1) rest =
            List.replicate (k + 1) '\n' ++ collapseNewlinesAux (k + 1) rest := by
          rw [List.replicate_succ']
          simp [List.append_assoc]
        rw [hsh]
        have hih := ih (k + 1)
        rw [hmin1] at hih
        exact hih
      · rw [show collapseNewlinesAux k ('\n' :: rest) = collapseNewlinesAux (k + 1) rest
            from by simp [collapseNewlinesAux, hk]]
        have hmin : min k 2 = 2 := by omega
        have hmin1 : min (k + 1) 2 = 2 := by omega
        rw [hmin]
        have hih := ih (k + 1)
        rw [hmin1] at hih
        exact hih
    · rw [show collapseNewlinesAux k (c :: rest) = c :: collapseNewlinesAux 0 rest
          from by simp [collapseNewlinesAux, hc]]
      have h0 := ih 0
      simp only [Nat.zero_min, List.replicate, List.nil_append] at h0
      exact hasTriple_pad (min k 2) (by omega) c hc _ h0

/-- Helper: trimming preserves triple-freedom (the result is an infix). -/
theorem jsTrim_noTriple (cs : List Char) (h : hasTripleNewline cs = false) :
    hasTripleNewline (jsTrim cs) = false := by
  obtain ⟨u, hu⟩ := List.dropWhile_suffix (l := cs) jsWhitespace
  have hd1 : hasTripleNewline (cs.dropWhile jsWhitespace) = false := by
    rw [← hu] at h
    exact noTriple_suffix u _ h
  obtain ⟨w, hw⟩ := List.dropWhile_suffix
    (l := (cs.dropWhile jsWhitespace).reverse) jsWhitespace
  have hsplit : cs.dropWhile jsWhitespace =
      ((cs.dropWhile jsWhitespace).reverse.dropWhile jsWhitespace).reverse ++ w.reverse := by
    have := congrArg List.reverse hw
    simpa [List.reverse_append] using this.symm
  rw [hsplit] at hd1
  exact noTriple_prefix _ _ hd1

/-- Helper: the head of a drop-while result fails the predicate. -/
theorem dropWhile_head?_not (p : Char → Bool) (l : List Char) (x : Char)
    (h : (l.dropWhile p).head? = some x) : p x = false := by
  induction l with
  | nil => cases h
  | cons a t ih =>
    cases hp : p a with
    | true =>
      rw [List.dropWhile_cons, if_pos hp] at h
      exact ih h
    | false =>
      rw [List.dropWhile_cons, if_neg (by simp [hp])] at h
      injection h with h
      rw [← h]
      exact hp

/-- Helper: a nonempty trimmed string neither starts nor ends with
whitespace. -/
theorem jsTrim_ends (cs : List Char) :
    (∀ x, (jsTrim cs).head? = some x → jsWhitespace x = false) ∧
    (∀ x, (jsTrim cs).getLast? = some x → jsWhitespace x = false) := by
  constructor
  · intro x hx
    have hx2 : ((cs.dropWhile jsWhitespace).reverse.dropWhile jsWhitespace).getLast?
        = some x := by
      rw [← List.head?_reverse]
      exact hx
    have hene : (cs.dropWhile jsWhitespace).reverse.dropWhile jsWhitespace ≠ [] := by
      intro hnil
      rw [hnil] at hx2
      cases hx2
    obtain ⟨w, hw⟩ := List.dropWhile_suffix
      (l := (cs.dropWhile jsWhitespace).reverse) jsWhitespace
    have h1 : (cs.dropWhile jsWhitespace).reverse.getLast? = some x := by
      rw [← hw, List.getLast?_append_of_ne_nil w hene]
      exact hx2
    have h2 : (cs.dropWhile jsWhitespace).head? = some x := by
      rw [← List.getLast?_reverse]
      exact h1
    exact dropWhile_head?_not jsWhitespace cs x h2
  · intro x hx
    have hx2 : ((cs.dropWhile jsWhitespace).reverse.dropWhile jsWhitespace).head?
        = some x := by
      rw [← List.getLast?_reverse]
      exact hx
    exact dropWhile_head?_not jsWhitespace (cs.dropWhile jsWhitespace).reverse x hx2

/-- Helper: gluing two triple-free pieces with exactly two newlines is
triple-free provided the left piece does not end and the right piece does
not start with a newline. -/
theorem glue_nil (v : List Char) (hv : hasTripleNewline v = false)
    (hvh : ∀ x, v.head? = some x → x ≠ '\n') :
    hasTripleNewline ('\n' :: '\n' :: v) = false := by
  cases v with
  | nil => rfl
  | cons a v' =>
    have ha : a ≠ '\n' := hvh a rfl
    have := hasTriple_pad 1 (by omega) a ha v' (noTriple_tail a v' hv)
    simpa [List.replicate, hasTripleNewline, ha, hv] using this

theorem glue (u v : List Char) (hu : hasTripleNewline u = false)
    (hv : hasTripleNewline v = false)
    (hul : ∀ x, u.getLast? = some x → x ≠ '\n')
    (hvh : ∀ x, v.head? = some x → x ≠ '\n') :
    hasTripleNewline (u ++ '\n' :: '\n' :: v) = false := by
  induction u with
  | nil => simpa using glue_nil v hv hvh
  | cons a u ih =>
    have hu' : hasTripleNewline u = false := noTriple_tail a u hu
    have hul' : ∀ x, u.getLast? = some x → x ≠ '\n' := by
      intro x hx
      apply hul
      cases u with
      | nil => cases hx
      | cons b u' => rw [List.getLast?_cons_cons]; exact hx
    have hrec := ih hu' hul'
    cases u with
    | nil =>
      have ha : a ≠ '\n' := hul a rfl
      simp only [List.nil_append] at hrec ⊢
      cases v with
      | nil => simp [hasTripleNewline, ha]
      | cons c v' => simpa [hasTripleNewline, ha] using hrec
    | cons b u' =>
      cases u' with
      | nil =>
        have hb : b ≠ '\n' := hul' b rfl
        simp only [List.cons_append, List.nil_append] at hrec ⊢
        simpa [hasTripleNewline, hb] using hrec
      | cons cch u'' =>
        have hfront : ¬(a = '\n' ∧ b = '\n' ∧ cch = '\n') := by
          rintro ⟨h1, h2, h3⟩
          simp [hasTripleNewline, h1, h2, h3] at hu
        simp only [List.cons_append] at hrec ⊢
        by_cases h1 : a = '\n' <;> by_cases h2 : b = '\n' <;> by_cases h3 : cch = '\n' <;>
          simp_all [hasTripleNewline]

/-- Helper: the collected text sections are the nonempty flattened
blocks. -/
theorem collectTextSections_eq (blocks : List String) :
    collectTextSections blocks =
      (blocks.map flattenSectionText).filter (fun t => t ≠ "") := by
  have key : ∀ (bs : List String) (acc : List String),
      bs.foldl (fun acc b =>
        let t := flattenSectionText b
        if t ≠ "" then acc ++ [t] else acc) acc =
      acc ++ (bs.map flattenSectionText).filter (fun t => t ≠ "") := by
    intro bs
    induction bs with
    | nil => intro acc; simp
    | cons b rest ih =>
      intro acc
      by_cases hb : flattenSectionText b ≠ ""
      · simp only [List.foldl_cons, List.map_cons, List.filter_cons]
        rw [ih]
        simp [hb]
      · simp only [List.foldl_cons, List.map_cons, List.filter_cons]
        rw [ih]
        simp [hb]
  simpa [collectTextSections] using key blocks []

/-- Helper: the head of a joined nonempty block list is the head of its
first block. -/
theorem joinWithDoubleNewline_head (b : String) (rest : List String) :
    b.data ≠ [] → (joinWithDoubleNewline (b :: rest)).data.head? = b.data.head? := by
  intro hb
  cases rest with
  | nil => rfl
  | cons c r =>
    show (b ++ "\n\n" ++ joinWithDoubleNewline (c :: r)).data.head? = b.data.head?
    rw [String.data_append, String.data_append]
    rw [List.append_assoc]
    cases hd : b.data with
    | nil => exact absurd hd hb
    | cons x t => simp [hd]

/-- Helper: joining triple-free blocks that neither start nor end with a
newline, with double newlines, stays triple-free. -/
theorem join_noTriple (ts : List String)
    (h : ∀ t ∈ ts, t.data ≠ [] ∧ hasTripleNewline t.data = false ∧
      (∀ x, t.data.head? = some x → x ≠ '\n') ∧
      (∀ x, t.data.getLast? = some x → x ≠ '\n')) :
    hasTripleNewline (joinWithDoubleNewline ts).data = false := by
  induction ts with
  | nil => rfl
  | cons b rest ih =>
    cases rest with
    | nil => exact (h b (by simp)).2.1
    | cons c r =>
      have hb := h b (by simp)
      have hc := h c (by simp)
      have hrest : ∀ t ∈ c :: r, t.data ≠ [] ∧ hasTripleNewline t.data = false ∧
          (∀ x, t.data.head? = some x → x ≠ '\n') ∧
          (∀ x, t.data.getLast? = some x → x ≠ '\n') := by
        intro t ht
        exact h t (by simp [ht])
      have hJ := ih hrest
      have hJh : ∀ x, (joinWithDoubleNewline (c :: r)).data.head? = some x → x ≠ '\n' := by
        intro x hx
        rw [joinWithDoubleNewline_head c r hc.1] at hx
        exact hc.2.2.1 x hx
      show hasTripleNewline (b ++ "\n\n" ++ joinWithDoubleNewline (c :: r)).data = false
      rw [String.data_append, String.data_append, List.append_assoc]
      have hnn : ("\n\n" : String).data ++ (joinWithDoubleNewline (c :: r)).data =
          '\n' :: '\n' :: (joinWithDoubleNewline (c :: r)).data := rfl
      rw [hnn]
      exact glue b.data (joinWithDoubleNewline (c :: r)).data hb.2.1 hJ hb.2.2.2 hJh

/-- C9: the clipboard text is the nonempty flattened per-section text
blocks joined by exactly one double newline, and it never contains three
consecutive newline characters (each block is collapsed to at most double
newlines and trimmed, and the join separator is exactly two newlines
between non-newline boundary characters). -/
theorem c9_clipboard_flatten (blocks : List String) :
    copyToClipboardText blocks =
      joinWithDoubleNewline ((blocks.map flattenSectionText).filter (fun t => t ≠ "")) ∧
    hasTripleNewline (copyToClipboardText blocks).data = false := by
  have heq : copyToClipboardText blocks =
      joinWithDoubleNewline ((blocks.map flattenSectionText).filter (fun t => t ≠ "")) := by
    rw [copyToClipboardText, collectTextSections_eq]
  refine ⟨heq, ?_⟩
  rw [heq]
  apply join_noTriple
  intro t ht
  rw [List.mem_filter] at ht
  obtain ⟨hmem, hne⟩ := ht
  rw [List.mem_map] at hmem
  obtain ⟨b, _, rfl⟩ := hmem
  have hne' : (flattenSectionText b) ≠ "" := by simpa using hne
  have hdata : (flattenSectionText b).data = jsTrim (collapseNewlines b.data) := rfl
  have hcollapse : hasTripleNewline (collapseNewlines b.data) = false := by
    have := collapse_noTriple b.data 0
    simpa [collapseNewlines] using this
  have hends := jsTrim_ends (collapseNewlines b.data)
  refine ⟨?_, ?_, ?_, ?_⟩
  · intro hnil
    apply hne'
    have : (flattenSectionText b).data = ("" : String).data := by simp [hnil]
    exact String.ext this
  · rw [hdata]
    exact jsTrim_noTriple _ hcollapse
  · intro x hx
    rw [hdata] at hx
    have := hends.1 x hx
    intro hxe
    rw [hxe] at this
    simp [jsWhitespace] at this
  · intro x hx
    rw [hdata] at hx
    have := hends.2 x hx
    intro hxe
    rw [hxe] at this
    simp [jsWhitespace] at this

/-- Helper: the `||`-defaulting of a string value is the identity on
strings (the empty string defaults to itself). -/
theorem jv_or_default_str (s : String) :
    (if jvTruthy (JVal.str s) then JVal.str s else JVal.str "") = JVal.str s := by
  by_cases h : s = ""
  · subst h; simp [jvTruthy]
  · simp [jvTruthy, h]

/-- Helper: rewriting a field with the value it already holds is the
identity. -/
theorem setField_lookup_eq (fs : List (String × JVal)) (k : String) (v : JVal)
    (h : lookupField fs k = some v) : setField fs k v = fs := by
  induction fs with
  | nil => simp [lookupField] at h
  | cons p rest ih =>
    obtain ⟨k', v'⟩ := p
    by_cases hk : k' = k
    · subst hk
      simp [lookupField, List.find?] at h
      simp [setField, h]
    · have hkb := beq_eq_false_iff_ne.mpr hk
      simp only [lookupField, List.find?, hkb] at h
      simp only [setField, hkb, Bool.false_eq_true, if_false, List.cons.injEq, true_and]
      exact ih h

/-- Helper: a well-formed stored component (string label, present string
`variableName`, an options array whenever its type requires one) is a
fixed point of import sanitization. -/
theorem sanitizeComponent_stable (c : Comp)
    (hl : ∃ l, c.label = .str l)
    (hv : ∃ v, lookupField c.attributes "variableName" = some (.str v))
    (ho : (isStrEq c.type "dropdown" || isStrEq c.type "multi-text-field") = true →
      ∃ xs, lookupField c.attributes "options" = some (.arr xs)) :
    sanitizeComponent (compToJVal c) = .ok c := by
  obtain ⟨cid, cty, clab, cattrs⟩ := c
  obtain ⟨l, hl⟩ := hl
  simp only at hl hv ho ⊢
  subst hl
  obtain ⟨v, hv⟩ := hv
  have hread : sanitizeComponent (compToJVal ⟨cid, cty, .str l, cattrs⟩) =
      .ok ⟨cid, cty, (if jvTruthy (.str l) then .str l else .str ""),
           sanitizedAttributes cty (.obj cattrs)⟩ := rfl
  rw [hread, jv_or_default_str l]
  have hattrs : sanitizedAttributes cty (.obj cattrs) = cattrs := by
    have hvn0 : jsGetOpt (.obj cattrs) "variableName" = .str v := by
      simp [jsGetOpt, hv]
    have hbase : (if jvTruthy (JVal.obj cattrs) then spreadFields (.obj cattrs) else []) =
        cattrs := by simp [jvTruthy, spreadFields]
    simp only [sanitizedAttributes, hvn0, jv_or_default_str v, hbase,
      setField_lookup_eq cattrs "variableName" (.str v) hv]
    by_cases hty : (isStrEq cty "dropdown" || isStrEq cty "multi-text-field") = true
    · obtain ⟨xs, hxs⟩ := ho hty
      simp [hty, hxs, jvTruthy, jvIsArr]
    · simp only [Bool.not_eq_true] at hty
      simp [hty]
  rw [hattrs]

/-- Helper: a list of stable components sanitizes to itself. -/
theorem sanitizeComponents_stable (l : List Comp)
    (h : ∀ c ∈ l, sanitizeComponent (compToJVal c) = .ok c) :
    sanitizeComponents (l.map compToJVal) = .ok l := by
  induction l with
  | nil => rfl
  | cons c rest ih =>
    have hc := h c (by simp)
    have hr := ih (fun d hd => h d (by simp [hd]))
    simp [sanitizeComponents, hc, hr]

/-- Helper: a well-formed section (truthy id, string title and content,
defined enabled flag) is a fixed point of import sanitization and does
not advance the id counter. -/
theorem sanitizeSection_stable (n : Nat) (s : Sect)
    (hid : jvTruthy s.id = true)
    (ht : ∃ t, s.title = .str t)
    (hc : ∃ cc, s.content = .str cc)
    (he : jvIsUndefined s.enabled = false) :
    sanitizeSection n (sectToJVal s) = .ok (s, n) := by
  obtain ⟨sid, stitle, scontent, senabled⟩ := s
  obtain ⟨t, ht⟩ := ht
  obtain ⟨cc, hc⟩ := hc
  simp only at hid ht hc he
  subst ht
  subst hc
  have hread : sanitizeSection n (sectToJVal ⟨sid, .str t, .str cc, senabled⟩) =
      .ok (⟨(if jvTruthy sid then ((sid, n) : JVal × Nat)
              else (.str (genSectionId n), n + 1)).1,
            if jvTruthy (.str t) then .str t else .str "",
            if jvTruthy (.str cc) then .str cc else .str "",
            if jvIsUndefined senabled then .bool true else senabled⟩,
           (if jvTruthy sid then ((sid, n) : JVal × Nat)
              else (.str (genSectionId n), n + 1)).2) := rfl
  rw [hread]
  simp [hid, he, jv_or_default_str]

/-- Helper: a list of stable sections sanitizes to itself without
advancing the counter. -/
theorem sanitizeSections_stable (l : List Sect)
    (h : ∀ s ∈ l, jvTruthy s.id = true ∧ (∃ t, s.title = .str t) ∧
      (∃ cc, s.content = .str cc) ∧ jvIsUndefined s.enabled = false) :
    ∀ n, sanitizeSections n (l.map sectToJVal) = (.ok l, n) := by
  induction l with
  | nil => intro n; rfl
  | cons s rest ih =>
    intro n
    obtain ⟨h1, h2, h3, h4⟩ := h s (by simp)
    have hs := sanitizeSection_stable n s h1 h2 h3 h4
    have hr := ih (fun d hd => h d (by simp [hd])) n
    simp [sanitizeSections, hs, hr]

/-- Helper: `jvBEq` against a string is sound. -/
theorem jvBEq_str_right (x : JVal) (s : String) (h : jvBEq x (.str s) = true) :
    x = .str s := by
  cases x <;> simp_all [jvBEq]

/-- Helper: entries of a `Map.set` result come from the map, are the
inserted pair, or carry the inserted value under the matching old key. -/
theorem mapSet_mem (m : Store) (k : JVal) (v : Comp) (p : JVal × Comp)
    (hp : p ∈ mapSet m k v) :
    p ∈ m ∨ p = (k, v) ∨ (p.2 = v ∧ jvBEq p.1 k = true) := by
  induction m with
  | nil =>
    rw [show mapSet [] k v = [(k, v)] from rfl] at hp
    right; left
    simpa using hp
  | cons q m' ih =>
    obtain ⟨k', v'⟩ := q
    by_cases hb : jvBEq k' k = true
    · rw [show mapSet ((k', v') :: m') k v = (k', v) :: m' from by simp [mapSet, hb]] at hp
      rcases List.mem_cons.mp hp with h | h
      · subst h
        right; right
        exact ⟨rfl, hb⟩
      · left
        exact List.mem_cons_of_mem _ h
    · rw [show mapSet ((k', v') :: m') k v = (k', v') :: mapSet m' k v from by
        simp [mapSet, hb]] at hp
      rcases List.mem_cons.mp hp with h | h
      · left
        simp [h]
      · rcases ih h with h2 | h2 | h2
        · left
          exact List.mem_cons_of_mem _ h2
        · right; left; exact h2
        · right; right; exact h2

/-- Helper: under the key-equals-id invariant, a `find?` over the store's
values by string id returns the canonical component for that id. -/
theorem find_values_eq (g : String → Option Comp)
    (m : Store)
    (hm : ∀ p ∈ m, ∃ j : String, p.2.id = .str j ∧ g j = some p.2)
    (i : String) :
    (getAllComponents m).find? (fun c => isStrEq c.id i) =
      (if m.any (fun p => isStrEq p.2.id i) then g i else none) := by
  induction m with
  | nil => simp [getAllComponents]
  | cons p m' ih =>
    obtain ⟨j, hid, hgj⟩ := hm p (by simp)
    cases hstr : isStrEq p.2.id i with
    | true =>
      have hpi : p.2.id = .str i := isStrEq_eq _ _ hstr
      have hji : j = i := by
        rw [hpi] at hid
        exact (JVal.str.inj hid).symm
      subst hji
      simp [getAllComponents, List.find?, hstr, List.any_cons, hgj]
    | false =>
      have ihr := ih (fun q hq => hm q (by simp [hq]))
      simp only [getAllComponents, List.map_cons, List.find?, hstr, List.any_cons,
        Bool.false_or]
      exact ihr

/-- Helper: the key-equals-id and canonical-value invariant survives
`Map.set` insertions of canonical string-id components. -/
theorem mapSet_invariant (g : String → Option Comp) (m : Store) (d : Comp) (j : String)
    (hd : d.id = .str j) (hgd : g j = some d)
    (hm : ∀ p ∈ m, p.1 = p.2.id ∧ ∃ j' : String, p.2.id = .str j' ∧ g j' = some p.2) :
    ∀ p ∈ mapSet m d.id d, p.1 = p.2.id ∧ ∃ j' : String, p.2.id = .str j' ∧ g j' = some p.2 := by
  intro p hp
  rcases mapSet_mem m d.id d p hp with h | h | h
  · exact hm p h
  · subst h
    exact ⟨rfl, j, hd, hgd⟩
  · obtain ⟨h2, hbeq⟩ := h
    rw [hd] at hbeq
    have h1 : p.1 = .str j := jvBEq_str_right p.1 j hbeq
    refine ⟨?_, j, ?_, ?_⟩
    · rw [h1, h2, hd]
    · rw [h2, hd]
    · rw [h2]
      exact hgd

/-- Helper: the value-id membership test after a `Map.set` of a canonical
component. -/
theorem mapSet_any_id (m : Store) (d : Comp) (j : String) (hd : d.id = .str j)
    (hm : ∀ p ∈ m, p.1 = p.2.id) (i : String) :
    (mapSet m d.id d).any (fun p => isStrEq p.2.id i) =
      (m.any (fun p => isStrEq p.2.id i) || isStrEq d.id i) := by
  induction m with
  | nil => simp [mapSet]
  | cons q m' ih =>
    obtain ⟨k', v'⟩ := q
    have hkey : k' = v'.id := hm (k', v') (by simp)
    by_cases hb : jvBEq k' d.id = true
    · rw [show mapSet ((k', v') :: m') d.id d = (k', d) :: m' from by simp [mapSet, hb]]
      have hk' : k' = .str j := by
        rw [hd] at hb
        exact jvBEq_str_right k' j hb
      have hv' : v'.id = .str j := by rw [← hkey, hk']
      have heq : isStrEq v'.id i = isStrEq d.id i := by rw [hv', hd]
      simp only [List.any_cons, heq]
      cases isStrEq d.id i <;> simp
    · rw [show mapSet ((k', v') :: m') d.id d = (k', v') :: mapSet m' d.id d from by
        simp [mapSet, hb]]
      have ihr := ih (fun q hq => hm q (by simp [hq]))
      simp only [List.any_cons, ihr]
      cases isStrEq v'.id i <;> simp

/-- Helper: rebuilding a store by adding canonical components keeps the
invariant and accumulates exactly their ids. -/
theorem foldl_add_invariant (g : String → Option Comp) (l : List Comp)
    (hl : ∀ d ∈ l, ∃ j : String, d.id = .str j ∧ g j = some d) :
    ∀ m, (∀ p ∈ m, p.1 = p.2.id ∧ ∃ j' : String, p.2.id = .str j' ∧ g j' = some p.2) →
      (∀ p ∈ l.foldl addComponent m,
        p.1 = p.2.id ∧ ∃ j' : String, p.2.id = .str j' ∧ g j' = some p.2) := by
  induction l with
  | nil => intro m hm; simpa using hm
  | cons d l' ih =>
    intro m hm
    obtain ⟨j, hdj, hgd⟩ := hl d (by simp)
    have hm' := mapSet_invariant g m d j hdj hgd hm
    exact ih (fun e he => hl e (by simp [he])) (mapSet m d.id d) hm'

/-- Helper: the value-id membership test over a rebuilt store. -/
theorem foldl_add_any (l : List Comp) (i : String)
    (hl : ∀ d ∈ l, ∃ j : String, d.id = .str j) :
    ∀ m, (∀ p ∈ m, p.1 = p.2.id ∧ ∃ j' : String, p.2.id = .str j') →
      (l.foldl addComponent m).any (fun p => isStrEq p.2.id i) =
        (m.any (fun p => isStrEq p.2.id i) || l.any (fun d => isStrEq d.id i)) := by
  induction l with
  | nil => intro m hm; simp
  | cons d l' ih =>
    intro m hm
    obtain ⟨j, hdj⟩ := hl d (by simp)
    have hstep := mapSet_any_id m d j hdj (fun p hp => (hm p hp).1) i
    have hm' : ∀ p ∈ mapSet m d.id d, p.1 = p.2.id ∧ ∃ j' : String, p.2.id = .str j' := by
      intro p hp
      rcases mapSet_mem m d.id d p hp with h | h | h
      · exact hm p h
      · subst h
        exact ⟨rfl, j, hdj⟩
      · obtain ⟨h2, hbeq⟩ := h
        rw [hdj] at hbeq
        have h1 : p.1 = .str j := jvBEq_str_right p.1 j hbeq
        exact ⟨by rw [h1, h2, hdj], j, by rw [h2, hdj]⟩
    have ihr := ih (fun e he => hl e (by simp [he])) (mapSet m d.id d) hm'
    rw [List.foldl_cons]
    rw [show addComponent m d = mapSet m d.id d from rfl]
    rw [ihr, hstep]
    simp [List.any_cons, Bool.or_assoc, Bool.or_comm (isStrEq d.id i)]

/-- Helper: after rebuilding the store from the visible-component list,
looking any scanned id up among the store values gives the same result as
in the original store. -/
theorem rebuild_find_general (ids : List String) (store0 : Store) (i : String)
    (hi : i ∈ ids) :
    (getAllComponents
        ((ids.filterMap
            (fun j => (getAllComponents store0).find? (fun c => isStrEq c.id j))).foldl
          addComponent [])).find? (fun c => isStrEq c.id i) =
      (getAllComponents store0).find? (fun c => isStrEq c.id i) := by
  have hg : ∀ (j : String) (d : Comp),
      (getAllComponents store0).find? (fun c => isStrEq c.id j) = some d →
      d.id = .str j := by
    intro j d hd
    exact isStrEq_eq _ _ (by simpa using List.find?_some hd)
  have hvis : ∀ d ∈ ids.filterMap
      (fun j => (getAllComponents store0).find? (fun c => isStrEq c.id j)),
      ∃ j : String, d.id = .str j ∧
        (getAllComponents store0).find? (fun c => isStrEq c.id j) = some d := by
    intro d hd
    obtain ⟨j, hj, hgj⟩ := List.mem_filterMap.mp hd
    exact ⟨j, hg j d hgj, hgj⟩
  have hinv := foldl_add_invariant
    (fun j => (getAllComponents store0).find? (fun c => isStrEq c.id j))
    _ hvis [] (by simp)
  have hfind := find_values_eq
    (fun j => (getAllComponents store0).find? (fun c => isStrEq c.id j))
    _ (fun p hp => (hinv p hp).2) i
  rw [hfind]
  have hany := foldl_add_any
    (ids.filterMap (fun j => (getAllComponents store0).find? (fun c => isStrEq c.id j)))
    i (fun d hd => (hvis d hd).imp (fun j hj => hj.1)) [] (by simp)
  rw [hany]
  simp only [List.any_nil, Bool.false_or]
  cases hgi : (getAllComponents store0).find? (fun c => isStrEq c.id i) with
  | some c =>
    have hc : c ∈ ids.filterMap
        (fun j => (getAllComponents store0).find? (fun c => isStrEq c.id j)) :=
      List.mem_filterMap.mpr ⟨i, hi, hgi⟩
    have hcid : c.id = .str i := hg i c hgi
    have hmem : (ids.filterMap
        (fun j => (getAllComponents store0).find? (fun c => isStrEq c.id j))).any
        (fun d => isStrEq d.id i) = true := by
      rw [List.any_eq_true]
      exact ⟨c, hc, by simp [hcid, isStrEq]⟩
    rw [hmem]
    simp [hgi]
  | none =>
    cases hany2 : (ids.filterMap
        (fun j => (getAllComponents store0).find? (fun c => isStrEq c.id j))).any
        (fun d => isStrEq d.id i) with
    | false => simp
    | true =>
      exfalso
      obtain ⟨d, hd, hdi⟩ := List.any_eq_true.mp hany2
      obtain ⟨j, hdj, hgj⟩ := hvis d hd
      have hdi2 : d.id = .str i := isStrEq_eq _ _ hdi
      rw [hdi2] at hdj
      have hji : i = j := JVal.str.inj hdj
      rw [← hji] at hgj
      rw [hgi] at hgj
      cases hgj

/-- C5: round trip.  For a well-formed document state — at least one
section, truthy section ids, string titles and contents, defined enabled
flags, and visible components whose label is a string, whose
`variableName` attribute is a present string and which carry an options
array whenever their type requires one — re-importing the export succeeds
and yields exactly the same section sequence (ids included, so content,
title and enabled flags are preserved) and the same canonical ordered
visible-component list. -/
theorem c5_round_trip (st : EditorState)
    (hne : st.sections ≠ [])
    (hsec : ∀ s ∈ st.sections, jvTruthy s.id = true ∧ (∃ t, s.title = .str t) ∧
      (∃ cc, s.content = .str cc) ∧ jvIsUndefined s.enabled = false)
    (hcomp : ∀ c ∈ orderedVisibleComponents st,
      (∃ l, c.label = .str l) ∧
      (∃ v, lookupField c.attributes "variableName" = some (.str v)) ∧
      ((isStrEq c.type "dropdown" || isStrEq c.type "multi-text-field") = true →
        ∃ xs, lookupField c.attributes "options" = some (.arr xs))) :
    (importTemplateRun st (some (exportTemplate st))).2 = true ∧
    (importTemplateRun st (some (exportTemplate st))).1.sections = st.sections ∧
    orderedVisibleComponents (importTemplateRun st (some (exportTemplate st))).1 =
      orderedVisibleComponents st := by
  have h1 : jsGetE (exportTemplate st) "sections" =
      .ok (.arr (st.sections.map sectToJVal)) := rfl
  have h2 : jsGetE (exportTemplate st) "components" =
      .ok (.arr ((orderedVisibleComponents st).map compToJVal)) := rfl
  have hsan : sanitizeComponents ((orderedVisibleComponents st).map compToJVal) =
      .ok (orderedVisibleComponents st) :=
    sanitizeComponents_stable _ (fun c hc =>
      sanitizeComponent_stable c (hcomp c hc).1 (hcomp c hc).2.1 (hcomp c hc).2.2)
  have hsecs := sanitizeSections_stable st.sections hsec
  have hlen : 0 < (st.sections.map sectToJVal).length := by
    simpa using List.length_pos.mpr hne
  have hrun : importTemplateRun st (some (exportTemplate st)) =
      ({ st with store := (orderedVisibleComponents st).foldl addComponent [] }, true) := by
    simp only [importTemplateRun, h1, h2, jvTruthy, Bool.not_true, Bool.false_eq_true,
      if_false, clearComponents, hsan, hlen, if_true, hsecs]
  refine ⟨by rw [hrun], by rw [hrun], ?_⟩
  rw [hrun]
  show ((getOrderedVisibleComponentIds
      { st with store := (orderedVisibleComponents st).foldl addComponent [] }).filterMap
      (fun i => (getAllComponents
        ((orderedVisibleComponents st).foldl addComponent [])).find?
        (fun c => isStrEq c.id i))) =
    orderedVisibleComponents st
  have hids : getOrderedVisibleComponentIds
      { st with store := (orderedVisibleComponents st).foldl addComponent [] } =
      getOrderedVisibleComponentIds st := rfl
  rw [hids]
  rw [show orderedVisibleComponents st = (getOrderedVisibleComponentIds st).filterMap
      (fun i => (getAllComponents st.store).find? (fun c => isStrEq c.id i)) from rfl]
  apply List.filterMap_congr
  intro i hi
  exact rebuild_find_general (getOrderedVisibleComponentIds st) st.store i hi

/-- Witness for C5 at a concrete document: one enabled section whose
content carries the marker of the one stored dropdown component. -/
theorem c5_witness :
    (importTemplateRun roundTripState (some (exportTemplate roundTripState))).2 = true ∧
    (importTemplateRun roundTripState (some (exportTemplate roundTripState))).1.sections =
      roundTripState.sections ∧
    orderedVisibleComponents
        (importTemplateRun roundTripState (some (exportTemplate roundTripState))).1 =
      orderedVisibleComponents roundTripState := by
  apply c5_round_trip
  · simp [roundTripState]
  · intro s hs
    have hseq : s = ⟨.str "s1", .str "T",
        .str "pre <span data-component=\"true\" data-id=\"c1\">x</span> post",
        .bool true⟩ := by
      simpa [roundTripState] using hs
    subst hseq
    exact ⟨rfl, ⟨"T", rfl⟩,
      ⟨"pre <span data-component=\"true\" data-id=\"c1\">x</span> post", rfl⟩, rfl⟩
  · intro c hc
    have hvis : orderedVisibleComponents roundTripState = [roundTripComp] := rfl
    rw [hvis] at hc
    have hceq : c = roundTripComp := by simpa using hc
    subst hceq
    exact ⟨⟨"Dropdown: Status", rfl⟩, ⟨"v", rfl⟩,
      fun _ => ⟨[.str "O1", .str "O2"], rfl⟩⟩
